import Mathlib

/-!
Verification of the AGN rendering pipeline against its specification.

Part 1 embeds the WGSL shader module (vertex stage `vs_main`, fragment stage
`fs_main`, and the two separable blur passes `fs_blur_h` / `fs_blur_v`).
The embedding uses exact rationals for the shader's f32 scalars; the GPU
`sin` intrinsic and `textureSample` are abstracted as explicit function
parameters (`sinq`, `tex`), since they are primitives of the shading
language rather than code of this repository.
-/

namespace AGN

/-- A `vec4<f32>` value, modelled with exact rationals. -/
structure Vec4 where
  x : ℚ
  y : ℚ
  z : ℚ
  w : ℚ
deriving DecidableEq, Repr

instance : Add Vec4 := ⟨fun a b => ⟨a.x + b.x, a.y + b.y, a.z + b.z, a.w + b.w⟩⟩

instance : Mul Vec4 := ⟨fun a b => ⟨a.x * b.x, a.y * b.y, a.z * b.z, a.w * b.w⟩⟩

/-- Componentwise `vec4 * scalar`, as used by the blur taps. -/
def Vec4.scale (v : Vec4) (s : ℚ) : Vec4 := ⟨v.x * s, v.y * s, v.z * s, v.w * s⟩

/-- The `Globals` uniform block: `screen_size: vec2<f32>`, `time: f32`
(the `_pad` field is alignment padding and carries no information). -/
structure Globals where
  screen_size : ℚ × ℚ
  time : ℚ

/-- The `VertexInput` attribute record of the shader. `effect_flags` is a
`u32` bitmask, modelled as `Nat` with explicit `&&&` masking. -/
structure VertexInput where
  position : ℚ × ℚ
  color : Vec4
  uv : ℚ × ℚ
  effect_flags : Nat

/-- The `VertexOutput` record passed from the vertex to the fragment stage. -/
structure VertexOutput where
  clip_position : Vec4
  color : Vec4
  uv : ℚ × ℚ
  effect_flags : Nat
  local_pos : ℚ × ℚ

/-- Vertex stage `vs_main`: optional Shake displacement of `position.x`
(bit 2 of `effect_flags`), then projection of pixel coordinates to NDC.
`sinq` abstracts the WGSL `sin` intrinsic. -/
def vs_main (sinq : ℚ → ℚ) (g : Globals) (model : VertexInput) : VertexOutput :=
  let t := g.time
  let shake_amp : ℚ := 5.0
  let posx :=
    if model.effect_flags &&& 2 ≠ 0 then
      model.position.1 + sinq (t * 20.0 + model.position.2 * 0.1) * shake_amp
    else
      model.position.1
  let ndc_x := (posx / g.screen_size.1) * 2.0 - 1.0
  let ndc_y := (1.0 - model.position.2 / g.screen_size.2) * 2.0 - 1.0
  { clip_position := ⟨ndc_x, ndc_y, 0.0, 1.0⟩
    color := model.color
    uv := model.uv
    effect_flags := model.effect_flags
    local_pos := model.uv }

/-- The Pulse brightness term of `fs_main`: `(sin(time*3.0)+1.0)*0.2`. -/
def pulseTerm (sinq : ℚ → ℚ) (t : ℚ) : ℚ := (sinq (t * 3.0) + 1.0) * 0.2

/-- Fragment stage `fs_main`: sample the bound texture at `uv`, multiply by
the vertex color, then compose the Pulse (bit 1) and Rainbow (bit 4)
effects in that fixed order. `tex` abstracts
`textureSample(t_diffuse, s_diffuse, ·)`. -/
def fs_main (sinq : ℚ → ℚ) (tex : ℚ × ℚ → Vec4) (g : Globals)
    (input : VertexOutput) : Vec4 :=
  let color0 := tex input.uv * input.color
  let color1 :=
    if input.effect_flags &&& 1 ≠ 0 then
      let pulse := pulseTerm sinq g.time
      color0 + ⟨pulse, pulse, pulse, 0.0⟩
    else color0
  if input.effect_flags &&& 4 ≠ 0 then
    let t := g.time
    let r := sinq (t + input.uv.1) * 0.5 + 0.5
    let gc := sinq (t + input.uv.1 + 2.09) * 0.5 + 0.5
    let b := sinq (t + input.uv.1 + 4.18) * 0.5 + 0.5
    color1 * ⟨r, gc, b, 1.0⟩
  else color1

/-- The five blur weights of `array<f32, 5>(...)` in `fs_blur_h`/`fs_blur_v`. -/
def weight : Fin 5 → ℚ
  | 0 => 0.227027
  | 1 => 0.1945946
  | 2 => 0.1216216
  | 3 => 0.054054
  | 4 => 0.016216

/-- Horizontal blur pass `fs_blur_h`: nine taps at offsets
`k / screen_size.x` for `k = -4..4`, weighted symmetrically. -/
def fs_blur_h (tex : ℚ × ℚ → Vec4) (g : Globals) (input : VertexOutput) : Vec4 :=
  let offset : ℚ × ℚ := (1.0 / g.screen_size.1, 0.0)
  let uv := input.uv
  let c0 : Vec4 := ⟨0.0, 0.0, 0.0, 0.0⟩
  let c1 := c0 + (tex uv).scale (weight 0)
  let c2 := c1 + (tex (uv + ((1.0, 0.0) : ℚ × ℚ) * offset)).scale (weight 1)
  let c3 := c2 + (tex (uv - ((1.0, 0.0) : ℚ × ℚ) * offset)).scale (weight 1)
  let c4 := c3 + (tex (uv + ((2.0, 0.0) : ℚ × ℚ) * offset)).scale (weight 2)
  let c5 := c4 + (tex (uv - ((2.0, 0.0) : ℚ × ℚ) * offset)).scale (weight 2)
  let c6 := c5 + (tex (uv + ((3.0, 0.0) : ℚ × ℚ) * offset)).scale (weight 3)
  let c7 := c6 + (tex (uv - ((3.0, 0.0) : ℚ × ℚ) * offset)).scale (weight 3)
  let c8 := c7 + (tex (uv + ((4.0, 0.0) : ℚ × ℚ) * offset)).scale (weight 4)
  c8 + (tex (uv - ((4.0, 0.0) : ℚ × ℚ) * offset)).scale (weight 4)

/-- Vertical blur pass `fs_blur_v`: nine taps at offsets
`k / screen_size.y`, weighted symmetrically. -/
def fs_blur_v (tex : ℚ × ℚ → Vec4) (g : Globals) (input : VertexOutput) : Vec4 :=
  let offset : ℚ × ℚ := (0.0, 1.0 / g.screen_size.2)
  let uv := input.uv
  let c0 : Vec4 := ⟨0.0, 0.0, 0.0, 0.0⟩
  let c1 := c0 + (tex uv).scale (weight 0)
  let c2 := c1 + (tex (uv + ((0.0, 1.0) : ℚ × ℚ) * offset)).scale (weight 1)
  let c3 := c2 + (tex (uv - ((0.0, 1.0) : ℚ × ℚ) * offset)).scale (weight 1)
  let c4 := c3 + (tex (uv + ((0.0, 2.0) : ℚ × ℚ) * offset)).scale (weight 2)
  let c5 := c4 + (tex (uv - ((0.0, 2.0) : ℚ × ℚ) * offset)).scale (weight 2)
  let c6 := c5 + (tex (uv + ((0.0, 3.0) : ℚ × ℚ) * offset)).scale (weight 3)
  let c7 := c6 + (tex (uv - ((0.0, 3.0) : ℚ × ℚ) * offset)).scale (weight 3)
  let c8 := c7 + (tex (uv + ((0.0, 4.0) : ℚ × ℚ) * offset)).scale (weight 4)
  c8 + (tex (uv - ((0.0, 4.0) : ℚ × ℚ) * offset)).scale (weight 4)

/-- Sum of all nine blur tap weights: the center weight plus twice each of
the four symmetric side weights. -/
def weightSum : ℚ :=
  weight 0 + 2 * weight 1 + 2 * weight 2 + 2 * weight 3 + 2 * weight 4

/-!
Part 2 embeds the event bridge of the web page component: the
`console.info` override that decodes `[Output]` / `[Animation]` /
`[RegisterEvent]` lines, and the `handleAnim` listener that applies an
animation event to the accumulated outputs. Strings are processed as
`List Char`, matching the character-by-character behaviour of the
JavaScript regular expressions involved.
-/

/-- A quote character, written by code so that string literals in this file
stay free of apostrophes. -/
def quoteChar : Char := Char.ofNat 39

/-- One non-capturing tail step of the component regex: `.*\]$` — every
character except the final `]` must be a non-newline; returns the characters
before the final `]`. -/
def tailMatch : List Char → Option (List Char)
  | [] => none
  | [ch] => if ch = ']' then some [] else none
  | ch :: ch2 :: rest =>
    if ch = '\n' then none
    else (tailMatch (ch2 :: rest)).map fun l => ch :: l

/-- The lazy group `(.*?)'` followed by `.*\]$`: finds the shortest label
`c` up to a closing quote whose remainder matches `tailMatch`, extending the
label on backtracking exactly as the JavaScript engine does. -/
def matchLabel : List Char → Option (List Char × List Char)
  | [] => none
  | ch :: rest =>
    if ch = quoteChar then
      match tailMatch rest with
      | some d => some ([], d)
      | none => (matchLabel rest).map fun p => (ch :: p.1, p.2)
    else if ch = '\n' then none
    else (matchLabel rest).map fun p => (ch :: p.1, p.2)

/-- The lazy group `(.*?) '` followed by the label part: finds the shortest
`b` followed by a space, an opening quote and a matching label. -/
def matchB : List Char → Option (List Char × List Char × List Char)
  | [] => none
  | [_] => none
  | ch :: q :: rest2 =>
    if ch = ' ' then
      if q = quoteChar then
        match matchLabel rest2 with
        | some (c, d) => some ([], c, d)
        | none => (matchB (q :: rest2)).map fun p => (ch :: p.1, p.2.1, p.2.2)
      else (matchB (q :: rest2)).map fun p => (ch :: p.1, p.2.1, p.2.2)
    else if ch = '\n' then none
    else (matchB (q :: rest2)).map fun p => (ch :: p.1, p.2.1, p.2.2)

/-- The lazy group `(.*?) ` followed by the rest of the component pattern:
finds the shortest `a` followed by a space and a matching `matchB` tail. -/
def matchA : List Char → Option (List Char × List Char × List Char × List Char)
  | [] => none
  | ch :: rest =>
    if ch = ' ' then
      match matchB rest with
      | some (b, c, d) => some ([], b, c, d)
      | none => (matchA rest).map fun p => (ch :: p.1, p.2)
    else if ch = '\n' then none
    else (matchA rest).map fun p => (ch :: p.1, p.2)

/-- The anchored component regex of the `[Output]` handler,
`^\[(.*?) (.*?) '(.*?)'.*\]$`, with lazy-group semantics: on success the
four components are the style group, the kind group, the label group and
the text swallowed by the final `.*`. -/
def componentMatch : List Char → Option (List Char × List Char × List Char × List Char)
  | ch :: rest => if ch = '[' then matchA rest else none
  | [] => none

/-- Whitespace recognised by JavaScript number conversions (the subset
relevant to the modelled inputs). -/
def isWS (c : Char) : Bool := c = ' ' ∨ c = '\t' ∨ c = '\n' ∨ c = '\r'

/-- Numeric value of a digit run, most significant first. -/
def digitsVal (ds : List Char) : Nat :=
  ds.foldl (fun acc c => 10 * acc + (c.toNat - 48)) 0

/-- Split a character list into its leading digit run and the rest. -/
def spanDigits (l : List Char) : List Char × List Char :=
  (l.takeWhile Char.isDigit, l.dropWhile Char.isDigit)

/-- Unsigned decimal literal with optional fraction: `digits`,
`digits.digits?` or `.digits`; returns the value and the unconsumed rest. -/
def parseDec (l : List Char) : Option (ℚ × List Char) :=
  let p := spanDigits l
  if p.1.isEmpty then
    match l with
    | c :: r2 =>
      if c = '.' then
        let f := spanDigits r2
        if f.1.isEmpty then none
        else some ((digitsVal f.1 : ℚ) / 10 ^ f.1.length, f.2)
      else none
    | [] => none
  else
    match p.2 with
    | c :: r2 =>
      if c = '.' then
        let f := spanDigits r2
        some ((digitsVal p.1 : ℚ) + (digitsVal f.1 : ℚ) / 10 ^ f.1.length, f.2)
      else some ((digitsVal p.1 : ℚ), p.2)
    | [] => some ((digitsVal p.1 : ℚ), [])

/-- Optional exponent suffix `e`/`E` with optional sign; an `e` not followed
by digits is left unconsumed, as in JavaScript `parseFloat`. -/
def parseExp (l : List Char) : Int × List Char :=
  match l with
  | c :: r1 =>
    if c = 'e' ∨ c = 'E' then
      match r1 with
      | s :: r2 =>
        if s = '+' then
          let e := spanDigits r2
          if e.1.isEmpty then (0, l) else ((digitsVal e.1 : Int), e.2)
        else if s = '-' then
          let e := spanDigits r2
          if e.1.isEmpty then (0, l) else (-(digitsVal e.1 : Int), e.2)
        else
          let e := spanDigits r1
          if e.1.isEmpty then (0, l) else ((digitsVal e.1 : Int), e.2)
      | [] => (0, l)
    else (0, l)
  | [] => (0, l)

/-- Signed decimal literal. -/
def parseSigned (l : List Char) : Option (ℚ × List Char) :=
  match l with
  | c :: r =>
    if c = '-' then (parseDec r).map fun p => (-p.1, p.2)
    else if c = '+' then parseDec r
    else parseDec l
  | [] => none

/-- Signed decimal literal with optional exponent. -/
def parseNum (l : List Char) : Option (ℚ × List Char) :=
  match parseSigned l with
  | some (q, r) =>
    let e := parseExp r
    some (q * (10 : ℚ) ^ e.1, e.2)
  | none => none

/-- Model of the classification test
`!isNaN(parseFloat(content)) && isFinite(parseFloat(content))`:
JavaScript `parseFloat` skips leading whitespace and reads the longest
decimal-literal prefix, tolerating trailing garbage. An `Infinity` literal
fails the `isFinite` test in the source and is likewise rejected here
(the modelled grammar has no `Infinity` and no overflow). -/
def parseFloatQ (s : String) : Option ℚ :=
  (parseNum (s.data.dropWhile isWS)).map fun p => p.1

/-- Model of JavaScript `ToNumber` on a string, used by the coercing
comparison `value > 10`: both ends trimmed, the empty string is `0`, and
the whole remainder must be one decimal literal (hexadecimal and
`Infinity` literals are outside the modelled grammar). -/
def jsToNumber (s : String) : Option ℚ :=
  let l := ((s.data.dropWhile isWS).reverse.dropWhile isWS).reverse
  match l with
  | [] => some 0
  | _ :: _ =>
    match parseNum l with
    | some (q, []) => some q
    | _ => none

/-- The drawable kinds of the `OutputItem` interface. -/
inductive OutType where
  | text
  | card
  | number
deriving DecidableEq, Repr

/-- Inline style written by `handleAnim`. The `transition` field stores the
duration `d` of the CSS string `all {d}s ease`; the other fields store the
CSS value strings verbatim. -/
structure Style where
  transition : Option ℚ := none
  background : Option String := none
  transform : Option String := none
  boxShadow : Option String := none
deriving DecidableEq, Repr

/-- The `OutputItem` record of the page component (the unused `color`
field is omitted; `style` starts empty, i.e. undefined). -/
structure OutputItem where
  type : OutType
  content : String
  id : Option String := none
  styleStr : Option String := none
  style : Style := {}
deriving DecidableEq, Repr

/-- An `[Animation]` event payload after JSON decoding:
`{ target, property, value, duration }`, with `value` carried as the string
the handlers inspect. -/
structure AnimEvent where
  target : String
  property : String
  value : String
  duration : ℚ
deriving DecidableEq, Repr

/-- Classification of an `[Output]` payload, from the `console.info`
override: a component-literal match yields a card with the style group as
tag, the label group as content and the fixed id `MainButton`; otherwise a
finite `parseFloat` result yields a number, else a text item. -/
def classifyOutput (content : String) : OutputItem :=
  match componentMatch content.data with
  | some (s, _k, label, _d) =>
    { type := OutType.card
      content := String.mk label
      id := some "MainButton"
      styleStr := some (String.mk s) }
  | none =>
    if (parseFloatQ content).isSome then
      { type := OutType.number, content := content }
    else
      { type := OutType.text, content := content }

/-- Lowercase conversion, `value.toLowerCase()`. -/
def lowerStr (s : String) : String := String.mk (s.data.map Char.toLower)

/-- The two mock background colors of the color branch. -/
def blueBg : String := "rgba(0, 0, 255, 0.4)"

/-- Red background written when the value names red. -/
def redBg : String := "rgba(255, 0, 0, 0.4)"

/-- The two sequential `if` statements of the color branch: blue first,
red second (so red wins when both match), `none` when neither matches. -/
def colorOf (v : String) : Option String :=
  let c1 : Option String := none
  let c2 :=
    if v.data.contains '青' ∨ lowerStr v = "blue" then some blueBg else c1
  if v.data.contains '赤' ∨ lowerStr v = "red" then some redBg else c2

/-- Deep box shadow written when the animation value exceeds 10. -/
def deepShadow : String := "0 20px 40px rgba(0,0,0,0.5)"

/-- Shallow box shadow written for all other animation values. -/
def shallowShadow : String := "0 4px 6px rgba(0,0,0,0.1)"

/-- The coercing comparison `value > 10` of the shadow branch: a value that
does not convert to a number compares false (NaN semantics). -/
def shadowDeep (v : String) : Bool :=
  match jsToNumber v with
  | some q => decide (10 < q)
  | none => false

/-- The style update of `handleAnim` for one matching item: the transition
is always rewritten from the event duration, then the branch for the
event's property writes its one style slot. -/
def updateStyle (a : AnimEvent) (st : Style) : Style :=
  let s1 := { st with transition := some a.duration }
  if a.property = "色" ∨ a.property = "color" then
    match colorOf a.value with
    | some bg => { s1 with background := some bg }
    | none => s1
  else if a.property = "サイズ" ∨ a.property = "scale" then
    { s1 with transform := some ("scale(" ++ a.value ++ ")") }
  else if a.property = "影" ∨ a.property = "shadow" then
    if shadowDeep a.value then { s1 with boxShadow := some deepShadow }
    else { s1 with boxShadow := some shallowShadow }
  else s1

/-- The target test of `handleAnim`:
`item.id === target || (target === 'MainButton' && item.type === 'card')`. -/
def animMatches (target : String) (item : OutputItem) : Bool :=
  item.id = some target ∨ (target = "MainButton" ∧ item.type = OutType.card)

/-- One step of the `outputs.map` inside `handleAnim`. -/
def animStep (a : AnimEvent) (item : OutputItem) : OutputItem :=
  if animMatches a.target item then { item with style := updateStyle a item.style }
  else item

/-- The `handleAnim` listener: rewrite the style of every output item the
event targets. -/
def handleAnim (a : AnimEvent) (outs : List OutputItem) : List OutputItem :=
  outs.map (animStep a)

/-- Unanchored search for a tag followed by a non-empty single-line capture,
the behaviour of `msg.match(/\[Tag\] (.+)/)`: at each position where the
pattern occurs, `(.+)` must grab at least one non-newline character,
otherwise the search continues to the right. -/
def tagCapture (pat : List Char) : List Char → Option (List Char)
  | [] => none
  | ch :: rest =>
    if pat.isPrefixOf (ch :: rest) then
      let cap := ((ch :: rest).drop pat.length).takeWhile (fun c => c ≠ '\n')
      if cap.isEmpty then tagCapture pat rest
      else some cap
    else tagCapture pat rest

/-- Non-whitespace test for the `\S+` tokens of the `[RegisterEvent]`
pattern. -/
def nonWS (c : Char) : Bool := !(isWS c)

/-- Capture of `/\[RegisterEvent\] (\S+) (\S+)/` at the first position
where the tag occurs: two non-empty runs of non-whitespace characters
separated by one space. -/
def regCapture (l : List Char) : Option (List Char × List Char) :=
  match tagCapture "[RegisterEvent] ".data l with
  | some cap =>
    let t1 := cap.takeWhile nonWS
    let r1 := cap.dropWhile nonWS
    match r1 with
    | c :: r2 =>
      if c = ' ' then
        let t2 := r2.takeWhile nonWS
        if t1.isEmpty ∨ t2.isEmpty then none else some (t1, t2)
      else none
    | [] => none
  | none => none

/-- State of the page component as the decoder sees it: the log panel
lines and the accumulated output items (the scene state). -/
structure PageState where
  logs : List String
  outputs : List OutputItem
deriving DecidableEq, Repr

/-- The log appender `setLogs(prev => [...prev.slice(-99), msg])`. -/
def addLog (logs : List String) (m : String) : List String :=
  logs.drop (logs.length - 99) ++ [m]

/-- Processing of one console message by the `console.info` override,
parameterised by the JSON decoder `p` (JavaScript `JSON.parse` plus field
destructuring, abstracted; `none` models a parse exception). The three tag
handlers run in source order: `[Output]` appends a classified item,
`[Animation]` dispatches to `handleAnim` on success and logs a
`console.error` line on failure, `[RegisterEvent]` logs a system line. -/
def processMsg (p : String → Option AnimEvent) (st : PageState) (msg : String) :
    PageState :=
  let st1 : PageState := { st with logs := addLog st.logs ("[INFO] " ++ msg) }
  let st2 : PageState :=
    match tagCapture "[Output] ".data msg.data with
    | some content =>
      { st1 with outputs := st1.outputs ++ [classifyOutput (String.mk content)] }
    | none => st1
  let st3 : PageState :=
    match tagCapture "[Animation] ".data msg.data with
    | some payload =>
      match p (String.mk payload) with
      | some a => { st2 with outputs := handleAnim a st2.outputs }
      | none =>
        { st2 with logs := addLog st2.logs "[ERR] Failed to parse animation:" }
    | none => st2
  match regCapture msg.data with
  | some r =>
    { st3 with
      logs := addLog st3.logs
        ("[LOG] [System] Registered event " ++ String.mk r.2 ++ " on " ++ String.mk r.1) }
  | none => st3

/-- Character-list form of the component literal shape
`[a b 'c'd]` that the component regex recognises. -/
def componentShape (a b c d : List Char) : List Char :=
  '[' :: (a ++ ' ' :: (b ++ ' ' :: quoteChar :: (c ++ quoteChar :: (d ++ [']']))))

/-- No newline occurs in the list (the `.` of the regex cannot cross one). -/
def noNL (l : List Char) : Bool := l.all fun c => c ≠ '\n'

/-!
Theorems. First the componentwise lemmas for `Vec4`, then the helper
lemmas about the regex model, then one theorem per specification claim.
-/

@[simp] theorem Vec4.add_mk (a b c d e f g h : ℚ) :
    (⟨a, b, c, d⟩ + ⟨e, f, g, h⟩ : Vec4) = ⟨a + e, b + f, c + g, d + h⟩ := rfl

@[simp] theorem Vec4.mul_mk (a b c d e f g h : ℚ) :
    (⟨a, b, c, d⟩ * ⟨e, f, g, h⟩ : Vec4) = ⟨a * e, b * f, c * g, d * h⟩ := rfl

@[simp] theorem Vec4.add_w (a b : Vec4) : (a + b).w = a.w + b.w := rfl

@[simp] theorem Vec4.mul_w (a b : Vec4) : (a * b).w = a.w * b.w := rfl

/-- Unfolding of `classifyOutput` when the component regex matches. -/
theorem classifyOutput_card (content : String) (s k label d : List Char)
    (h : componentMatch content.data = some (s, k, label, d)) :
    classifyOutput content =
      { type := OutType.card, content := String.mk label,
        id := some "MainButton", styleStr := some (String.mk s) } := by
  unfold classifyOutput
  rw [h]

/-- Unfolding of `classifyOutput` when the component regex fails. -/
theorem classifyOutput_nocard (content : String)
    (h : componentMatch content.data = none) :
    classifyOutput content =
      if (parseFloatQ content).isSome then
        { type := OutType.number, content := content }
      else
        { type := OutType.text, content := content } := by
  unfold classifyOutput
  rw [h]

/-- Replaying a second style update for the same property overwrites the
first whenever the second event writes every slot the first wrote (for the
color property: unless the first value was recognised and the second was
not). -/
theorem updateStyle_updateStyle (a1 a2 : AnimEvent) (s : Style)
    (hp : a1.property = a2.property)
    (hc : (a2.property = "色" ∨ a2.property = "color") →
      (colorOf a1.value = none ∨ colorOf a2.value ≠ none)) :
    updateStyle a2 (updateStyle a1 s) = updateStyle a2 s := by
  unfold updateStyle
  rw [hp]
  by_cases h1 : a2.property = "色" ∨ a2.property = "color"
  · rw [if_pos h1, if_pos h1, if_pos h1]
    rcases h2 : colorOf a2.value with _ | bg2
    · rcases h3 : colorOf a1.value with _ | bg1
      · rfl
      · exfalso
        rcases hc h1 with h | h
        · rw [h3] at h
          exact Option.noConfusion h
        · exact h h2
    · rcases h3 : colorOf a1.value with _ | bg1 <;> rfl
  · rw [if_neg h1, if_neg h1, if_neg h1]
    by_cases h2 : a2.property = "サイズ" ∨ a2.property = "scale"
    · rw [if_pos h2, if_pos h2, if_pos h2]
    · rw [if_neg h2, if_neg h2, if_neg h2]
      by_cases h3 : a2.property = "影" ∨ a2.property = "shadow"
      · rw [if_pos h3, if_pos h3, if_pos h3]
        by_cases h4 : shadowDeep a2.value = true
        · rw [if_pos h4, if_pos h4]
          split_ifs <;> rfl
        · rw [if_neg h4, if_neg h4]
          split_ifs <;> rfl
      · rw [if_neg h3, if_neg h3, if_neg h3]

/-- Pointwise form of tween replacement on one output item. -/
theorem animStep_animStep (a1 a2 : AnimEvent) (item : OutputItem)
    (ht : a1.target = a2.target) (hp : a1.property = a2.property)
    (hc : (a2.property = "色" ∨ a2.property = "color") →
      (colorOf a1.value = none ∨ colorOf a2.value ≠ none)) :
    animStep a2 (animStep a1 item) = animStep a2 item := by
  unfold animStep
  rw [ht]
  by_cases hm : animMatches a2.target item = true
  · have hm2 : animMatches a2.target { item with style := updateStyle a1 item.style } = true := by
      simpa [animMatches] using hm
    simp [hm, hm2]
    exact updateStyle_updateStyle a1 a2 item.style hp hc
  · simp only [Bool.not_eq_true] at hm
    simp [hm]

/-- C1: with `screen_size = (600, 400)` and the Shake flag clear, pixel
`(0,0)` projects to NDC `(-1, 1)`, pixel `(600,400)` to `(1, -1)` and pixel
`(300,200)` to `(0, 0)`; in general the vertex stage maps pixel `(x, y)` to
`ndc.x = (x / screen_size.x) * 2 - 1` and
`ndc.y = (1 - y / screen_size.y) * 2 - 1`. -/
theorem C1_ndc_projection (sinq : ℚ → ℚ) (t : ℚ) (color : Vec4) (uv : ℚ × ℚ)
    (flags : Nat) (hsh : flags &&& 2 = 0) :
    (vs_main sinq ⟨(600, 400), t⟩ ⟨(0, 0), color, uv, flags⟩).clip_position =
      ⟨-1, 1, 0, 1⟩ ∧
    (vs_main sinq ⟨(600, 400), t⟩ ⟨(600, 400), color, uv, flags⟩).clip_position =
      ⟨1, -1, 0, 1⟩ ∧
    (vs_main sinq ⟨(600, 400), t⟩ ⟨(300, 200), color, uv, flags⟩).clip_position =
      ⟨0, 0, 0, 1⟩ ∧
    ∀ x y sx sy t2,
      (vs_main sinq ⟨(sx, sy), t2⟩ ⟨(x, y), color, uv, flags⟩).clip_position =
        ⟨(x / sx) * 2 - 1, (1 - y / sy) * 2 - 1, 0, 1⟩ := by
  refine ⟨?_, ?_, ?_, fun x y sx sy t2 => ?_⟩ <;>
    simp [vs_main, hsh] <;> norm_num

/-- C1 witness: the first projection instance at `flags = 0`. -/
theorem C1_witness :
    ((0 : Nat) &&& 2 = 0) ∧
    (vs_main (fun _ => 0) ⟨(600, 400), 0⟩
        ⟨(0, 0), ⟨1, 1, 1, 1⟩, (0, 0), 0⟩).clip_position = ⟨-1, 1, 0, 1⟩ :=
  ⟨by decide, (C1_ndc_projection (fun _ => 0) 0 ⟨1, 1, 1, 1⟩ (0, 0) 0 (by decide)).1⟩

/-- C2: with `effect_flags = 0` the fragment output is exactly
`textureSample(uv) * color` for every time and every abstract `sin`, and
the vertex position is projected undisplaced. -/
theorem C2_flags_zero_identity (sinq : ℚ → ℚ) (tex : ℚ × ℚ → Vec4) (g : Globals)
    (cp color : Vec4) (uv lp : ℚ × ℚ) :
    fs_main sinq tex g ⟨cp, color, uv, 0, lp⟩ = tex uv * color ∧
    ∀ pos : ℚ × ℚ,
      (vs_main sinq g ⟨pos, color, uv, 0⟩).clip_position =
        ⟨(pos.1 / g.screen_size.1) * 2 - 1, (1 - pos.2 / g.screen_size.2) * 2 - 1, 0, 1⟩ := by
  constructor
  · simp [fs_main]
  · intro pos
    simp [vs_main]
    norm_num

/-- C10: no effect flag ever changes the alpha channel — for every flag
combination the `w` component of the fragment output equals the `w`
component of `textureSample(uv) * color` (Pulse adds `0` to alpha, Rainbow
multiplies alpha by `1`). -/
theorem C10_alpha_preserved (sinq : ℚ → ℚ) (tex : ℚ × ℚ → Vec4) (g : Globals)
    (input : VertexOutput) :
    (fs_main sinq tex g input).w = (tex input.uv * input.color).w := by
  unfold fs_main
  split_ifs <;> simp <;> ring

/-- C7: for every time, the Pulse term `p = (sin(time*3)+1)*0.2` lies in
`[0, 0.4]`, vanishes exactly when `sin(3·time) = -1`, and with only the
Pulse flag set the fragment output is `textureSample(uv) * color`
plus `vec4(p, p, p, 0)` — additive whitening with alpha untouched. -/
theorem C7_pulse_term (sinq : ℚ → ℚ) (hs : ∀ x, -1 ≤ sinq x ∧ sinq x ≤ 1)
    (t : ℚ) (tex : ℚ × ℚ → Vec4) (cp color : Vec4) (uv lp : ℚ × ℚ) (sx sy : ℚ) :
    0 ≤ pulseTerm sinq t ∧ pulseTerm sinq t ≤ 0.4 ∧
    (pulseTerm sinq t = 0 ↔ sinq (t * 3) = -1) ∧
    fs_main sinq tex ⟨(sx, sy), t⟩ ⟨cp, color, uv, 1, lp⟩ =
      tex uv * color +
        ⟨pulseTerm sinq t, pulseTerm sinq t, pulseTerm sinq t, 0⟩ := by
  have e30 : (t * 3.0 : ℚ) = t * 3 := by norm_num
  obtain ⟨hlo, hhi⟩ := hs (t * 3)
  have hp : pulseTerm sinq t = (sinq (t * 3) + 1) * 0.2 := by
    unfold pulseTerm
    rw [e30]
    norm_num
  refine ⟨?_, ?_, ?_, ?_⟩
  · rw [hp]; nlinarith
  · rw [hp]; nlinarith
  · rw [hp]
    constructor
    · intro h
      rcases mul_eq_zero.mp h with h0 | h0
      · linarith
      · norm_num at h0
    · intro h
      rw [h]
      ring
  · simp [fs_main, show (1 : Nat) &&& 1 = 1 from by decide,
      show (1 : Nat) &&& 4 = 0 from by decide]
    norm_num

/-- C7 witness: the pulse bounds and pulse compositing at the constant-zero
sine and `t = 0`. -/
theorem C7_witness :
    (∀ x : ℚ, -1 ≤ (fun _ : ℚ => (0 : ℚ)) x ∧ (fun _ : ℚ => (0 : ℚ)) x ≤ 1) ∧
    0 ≤ pulseTerm (fun _ : ℚ => 0) 0 :=
  ⟨fun x => ⟨by norm_num, by norm_num⟩,
    (C7_pulse_term (fun _ => 0) (fun x => ⟨by norm_num, by norm_num⟩) 0
      (fun _ => ⟨1, 1, 1, 1⟩) ⟨0, 0, 0, 1⟩ ⟨1, 1, 1, 1⟩ (0, 0) (0, 0) 600 400).1⟩

/-- C3 counterexample: the nine blur weights sum to `0.9999994`, not `1`,
so one horizontal blur pass over a uniform white texture returns
`0.9999994` in every channel — the uniform color is not left exactly
unchanged. -/
theorem C3_counterexample :
    weightSum ≠ 1 ∧
    fs_blur_h (fun _ => ⟨1, 1, 1, 1⟩) ⟨(600, 400), 0⟩
        ⟨⟨0, 0, 0, 1⟩, ⟨1, 1, 1, 1⟩, (0.5, 0.5), 0, (0.5, 0.5)⟩ ≠
      ⟨1, 1, 1, 1⟩ := by
  constructor
  · norm_num [weightSum, show weight 0 = 0.227027 from rfl,
      show weight 1 = 0.1945946 from rfl, show weight 2 = 0.1216216 from rfl,
      show weight 3 = 0.054054 from rfl, show weight 4 = 0.016216 from rfl]
  · simp [fs_blur_h, Vec4.scale, Vec4.mk.injEq,
      show weight 0 = 0.227027 from rfl, show weight 1 = 0.1945946 from rfl,
      show weight 2 = 0.1216216 from rfl, show weight 3 = 0.054054 from rfl,
      show weight 4 = 0.016216 from rfl]
    norm_num

/-- C3 amended: the nine blur weights sum to exactly `4999997/5000000 =
0.9999994`, which is within `10⁻⁶` of `1`; each blur pass maps a uniform
color to that color scaled componentwise by the weight sum — unchanged only
up to that epsilon, not exactly. -/
theorem C3_blur_flat (c : Vec4) (g : Globals) (input : VertexOutput) :
    weightSum = 4999997 / 5000000 ∧
    |weightSum - 1| ≤ 1 / 10 ^ 6 ∧
    fs_blur_h (fun _ => c) g input = c.scale weightSum ∧
    fs_blur_v (fun _ => c) g input = c.scale weightSum := by
  have hsum : weightSum = 4999997 / 5000000 := by
    norm_num [weightSum, show weight 0 = 0.227027 from rfl,
      show weight 1 = 0.1945946 from rfl, show weight 2 = 0.1216216 from rfl,
      show weight 3 = 0.054054 from rfl, show weight 4 = 0.016216 from rfl]
  refine ⟨hsum, by rw [hsum, abs_le]; constructor <;> norm_num, ?_, ?_⟩ <;>
  · obtain ⟨cx, cy, cz, cw⟩ := c
    simp [fs_blur_h, fs_blur_v, Vec4.scale, weightSum,
      show weight 0 = 0.227027 from rfl, show weight 1 = 0.1945946 from rfl,
      show weight 2 = 0.1216216 from rfl, show weight 3 = 0.054054 from rfl,
      show weight 4 = 0.016216 from rfl]
    norm_num
    ring_nf
    simp

/-- C8: for the shadow property an Animate event never interpolates — the
applied box shadow is always exactly one of the two fixed values, and it is
the deep one precisely when the event value exceeds the magnitude
threshold 10 under the coercing comparison. -/
theorem C8_shadow_snap (a : AnimEvent) (item : OutputItem)
    (hprop : a.property = "影" ∨ a.property = "shadow")
    (hmatch : animMatches a.target item = true) :
    ((animStep a item).style.boxShadow = some deepShadow ∨
      (animStep a item).style.boxShadow = some shallowShadow) ∧
    ((animStep a item).style.boxShadow = some deepShadow ↔ shadowDeep a.value = true) := by
  have hbox : (animStep a item).style.boxShadow =
      if shadowDeep a.value then some deepShadow else some shallowShadow := by
    rcases hprop with h | h <;>
      simp [animStep, hmatch, updateStyle, h] <;> split_ifs <;> rfl
  rw [hbox]
  by_cases hsd : shadowDeep a.value = true
  · simp [hsd]
  · simp [hsd, deepShadow, shallowShadow]

/-- C8 witness: a shadow event with value `"20"` on a matching card snaps
to the deep shadow. -/
theorem C8_witness :
    (animMatches "MainButton"
        { type := OutType.card, content := "Hi", id := some "MainButton" } = true) ∧
    ((animStep ⟨"MainButton", "shadow", "20", 1⟩
          { type := OutType.card, content := "Hi", id := some "MainButton" }).style.boxShadow =
        some deepShadow ↔ shadowDeep "20" = true) :=
  ⟨by decide,
    (C8_shadow_snap ⟨"MainButton", "shadow", "20", 1⟩
      { type := OutType.card, content := "Hi", id := some "MainButton" }
      (Or.inr rfl) (by decide)).2⟩

/-- C9: every payload classified as a card gets the fixed id `MainButton`
while text and number items get no id, and an Animate event targeting
`MainButton` is applied to every card-type item (so with several cards the
shared id makes one event mutate them all). -/
theorem C9_card_id (content : String) (item : OutputItem) (a : AnimEvent) :
    ((classifyOutput content).type = OutType.card →
      (classifyOutput content).id = some "MainButton") ∧
    ((classifyOutput content).type ≠ OutType.card → (classifyOutput content).id = none) ∧
    (item.type = OutType.card → a.target = "MainButton" →
      animStep a item = { item with style := updateStyle a item.style }) := by
  refine ⟨?_, ?_, ?_⟩
  · intro hcard
    rcases h : componentMatch content.data with _ | ⟨s, k, label, d⟩
    · exfalso
      rw [classifyOutput_nocard content h] at hcard
      split_ifs at hcard
    · rw [classifyOutput_card content s k label d h]
  · intro hne
    rcases h : componentMatch content.data with _ | ⟨s, k, label, d⟩
    · rw [classifyOutput_nocard content h]
      split_ifs <;> rfl
    · exfalso
      rw [classifyOutput_card content s k label d h] at hne
      simp at hne
  · intro hcard htgt
    have hm : animMatches a.target item = true := by
      simp [animMatches, htgt, hcard]
    simp [animStep, hm]

/-- C9 witness: a card item is mutated by a `MainButton`-targeted event. -/
theorem C9_witness :
    (({ type := OutType.card, content := "Hi", id := some "MainButton" } : OutputItem).type
        = OutType.card) ∧
    animStep ⟨"MainButton", "scale", "0.9", 1⟩
        { type := OutType.card, content := "Hi", id := some "MainButton" } =
      { type := OutType.card, content := "Hi", id := some "MainButton",
        style := updateStyle ⟨"MainButton", "scale", "0.9", 1⟩
          ({ type := OutType.card, content := "Hi", id := some "MainButton" } : OutputItem).style } :=
  ⟨rfl,
    (C9_card_id "Hi" { type := OutType.card, content := "Hi", id := some "MainButton" }
      ⟨"MainButton", "scale", "0.9", 1⟩).2.2 rfl rfl⟩

/-- C6 counterexample: two color events on the same (target, property)
pair, the first with the recognised value `blue`, the second with the
unrecognised value `green`. After both, the single remaining style still
carries the FIRST event's background (blue), and the outcome differs from
applying only the second event — so the surviving animation does not use
the second event's parameters. -/
theorem C6_counterexample :
    (handleAnim ⟨"MainButton", "color", "green", 2⟩
        (handleAnim ⟨"MainButton", "color", "blue", 1⟩
          [{ type := OutType.card, content := "Hi", id := some "MainButton" }]) ≠
      handleAnim ⟨"MainButton", "color", "green", 2⟩
        [{ type := OutType.card, content := "Hi", id := some "MainButton" }]) ∧
    ((handleAnim ⟨"MainButton", "color", "green", 2⟩
        (handleAnim ⟨"MainButton", "color", "blue", 1⟩
          [{ type := OutType.card, content := "Hi", id := some "MainButton" }])).map
        (fun it => it.style.background) = [some blueBg]) ∧
    ((handleAnim ⟨"MainButton", "color", "green", 2⟩
        [{ type := OutType.card, content := "Hi", id := some "MainButton" }]).map
        (fun it => it.style.background) = [none]) := by
  refine ⟨?_, ?_, ?_⟩ <;> decide

/-- C6 amended: a second Animate event for the same (target, property)
pair replaces the first one — the post-state equals the state produced by
the second event alone — provided the second event writes every style slot
the first wrote; for the color property this requires the second value to
be recognised whenever the first was. The single style slot per property
means at most one live animation target ever exists per pair. -/
theorem C6_tween_replacement (a1 a2 : AnimEvent) (st : List OutputItem)
    (ht : a1.target = a2.target) (hp : a1.property = a2.property)
    (hc : (a2.property = "色" ∨ a2.property = "color") →
      (colorOf a1.value = none ∨ colorOf a2.value ≠ none)) :
    handleAnim a2 (handleAnim a1 st) = handleAnim a2 st := by
  unfold handleAnim
  rw [List.map_map]
  apply List.map_congr_left
  intro item _
  exact animStep_animStep a1 a2 item ht hp hc

/-- C6 witness: replacement at two recognised color events (blue then
red) on one card. -/
theorem C6_witness :
    (colorOf "red" ≠ none) ∧
    handleAnim ⟨"MainButton", "color", "red", 2⟩
        (handleAnim ⟨"MainButton", "color", "blue", 1⟩
          [{ type := OutType.card, content := "Hi", id := some "MainButton" }]) =
      handleAnim ⟨"MainButton", "color", "red", 2⟩
        [{ type := OutType.card, content := "Hi", id := some "MainButton" }] :=
  ⟨by decide,
    C6_tween_replacement ⟨"MainButton", "color", "blue", 1⟩
      ⟨"MainButton", "color", "red", 2⟩
      [{ type := OutType.card, content := "Hi", id := some "MainButton" }]
      rfl rfl (fun _ => Or.inr (by decide))⟩

/-- Soundness of the tail step: a successful `tailMatch` splits the list
before a final bracket. -/
theorem tailMatch_sound (l : List Char) : ∀ d, tailMatch l = some d → l = d ++ [']'] := by
  induction l with
  | nil => intro d h; exact Option.noConfusion h
  | cons ch rest ih =>
    intro d h
    cases rest with
    | nil =>
      simp only [tailMatch] at h
      by_cases hc : ch = ']'
      · rw [if_pos hc] at h
        cases h
        simp [hc]
      · rw [if_neg hc] at h
        exact Option.noConfusion h
    | cons ch2 rest2 =>
      simp only [tailMatch] at h
      by_cases hc : ch = '\n'
      · rw [if_pos hc] at h
        exact Option.noConfusion h
      · rw [if_neg hc] at h
        cases he : tailMatch (ch2 :: rest2) with
        | none =>
          rw [he] at h
          exact Option.noConfusion h
        | some d2 =>
          rw [he, Option.map_some'] at h
          cases h
          rw [List.cons_append, ← ih d2 he]

/-- Soundness of the label group: a match yields a label and a tail whose
concatenation restores the input. -/
theorem matchLabel_sound (l : List Char) :
    ∀ c d, matchLabel l = some (c, d) → l = c ++ quoteChar :: (d ++ [']']) := by
  induction l with
  | nil => intro c d h; exact Option.noConfusion h
  | cons ch rest ih =>
    intro c d h
    simp only [matchLabel] at h
    by_cases hq : ch = quoteChar
    · rw [if_pos hq] at h
      cases he : tailMatch rest with
      | some d2 =>
        rw [he] at h
        simp only [Option.some.injEq, Prod.mk.injEq] at h
        obtain ⟨rfl, rfl⟩ := h
        rw [hq, tailMatch_sound rest d2 he]
        simp
      | none =>
        rw [he] at h
        cases hm : matchLabel rest with
        | none =>
          rw [hm] at h
          exact Option.noConfusion h
        | some p =>
          obtain ⟨c1, d1⟩ := p
          rw [hm, Option.map_some'] at h
          simp only [Option.some.injEq, Prod.mk.injEq] at h
          obtain ⟨rfl, rfl⟩ := h
          rw [List.cons_append, ← ih c1 d1 hm]
    · rw [if_neg hq] at h
      by_cases hn : ch = '\n'
      · rw [if_pos hn] at h
        exact Option.noConfusion h
      · rw [if_neg hn] at h
        cases hm : matchLabel rest with
        | none =>
          rw [hm] at h
          exact Option.noConfusion h
        | some p =>
          obtain ⟨c1, d1⟩ := p
          rw [hm, Option.map_some'] at h
          simp only [Option.some.injEq, Prod.mk.injEq] at h
          obtain ⟨rfl, rfl⟩ := h
          rw [List.cons_append, ← ih c1 d1 hm]

/-- Soundness of the kind group. -/
theorem matchB_sound (l : List Char) :
    ∀ b c d, matchB l = some (b, c, d) →
      l = b ++ ' ' :: quoteChar :: (c ++ quoteChar :: (d ++ [']'])) := by
  induction l with
  | nil => intro b c d h; exact Option.noConfusion h
  | cons ch rest ih =>
    intro b c d h
    cases rest with
    | nil => exact Option.noConfusion h
    | cons q rest2 =>
      simp only [matchB] at h
      by_cases hsp : ch = ' '
      · rw [if_pos hsp] at h
        by_cases hq : q = quoteChar
        · rw [if_pos hq] at h
          cases hl : matchLabel rest2 with
          | some p =>
            obtain ⟨c1, d1⟩ := p
            rw [hl] at h
            simp only [Option.some.injEq, Prod.mk.injEq] at h
            obtain ⟨rfl, rfl, rfl⟩ := h
            rw [hsp, hq, matchLabel_sound rest2 c1 d1 hl]
            simp
          | none =>
            rw [hl] at h
            cases hm : matchB (q :: rest2) with
            | none =>
              rw [hm] at h
              exact Option.noConfusion h
            | some p =>
              obtain ⟨b1, c1, d1⟩ := p
              rw [hm, Option.map_some'] at h
              simp only [Option.some.injEq, Prod.mk.injEq] at h
              obtain ⟨rfl, rfl, rfl⟩ := h
              rw [List.cons_append, ← ih b1 c1 d1 hm]
        · rw [if_neg hq] at h
          cases hm : matchB (q :: rest2) with
          | none =>
            rw [hm] at h
            exact Option.noConfusion h
          | some p =>
            obtain ⟨b1, c1, d1⟩ := p
            rw [hm, Option.map_some'] at h
            simp only [Option.some.injEq, Prod.mk.injEq] at h
            obtain ⟨rfl, rfl, rfl⟩ := h
            rw [List.cons_append, ← ih b1 c1 d1 hm]
      · rw [if_neg hsp] at h
        by_cases hn : ch = '\n'
        · rw [if_pos hn] at h
          exact Option.noConfusion h
        · rw [if_neg hn] at h
          cases hm : matchB (q :: rest2) with
          | none =>
            rw [hm] at h
            exact Option.noConfusion h
          | some p =>
            obtain ⟨b1, c1, d1⟩ := p
            rw [hm, Option.map_some'] at h
            simp only [Option.some.injEq, Prod.mk.injEq] at h
            obtain ⟨rfl, rfl, rfl⟩ := h
            rw [List.cons_append, ← ih b1 c1 d1 hm]

/-- Soundness of the style group. -/
theorem matchA_sound (l : List Char) :
    ∀ a b c d, matchA l = some (a, b, c, d) →
      l = a ++ ' ' :: (b ++ ' ' :: quoteChar :: (c ++ quoteChar :: (d ++ [']']))) := by
  induction l with
  | nil => intro a b c d h; exact Option.noConfusion h
  | cons ch rest ih =>
    intro a b c d h
    simp only [matchA] at h
    by_cases hsp : ch = ' '
    · rw [if_pos hsp] at h
      cases hm : matchB rest with
      | some p =>
        obtain ⟨b1, c1, d1⟩ := p
        rw [hm] at h
        simp only [Option.some.injEq, Prod.mk.injEq] at h
        obtain ⟨rfl, rfl, rfl, rfl⟩ := h
        rw [hsp, matchB_sound rest b1 c1 d1 hm]
        simp
      | none =>
        rw [hm] at h
        cases hm2 : matchA rest with
        | none =>
          rw [hm2] at h
          exact Option.noConfusion h
        | some p =>
          obtain ⟨a1, b1, c1, d1⟩ := p
          rw [hm2, Option.map_some'] at h
          simp only [Option.some.injEq, Prod.mk.injEq] at h
          obtain ⟨rfl, rfl, rfl, rfl⟩ := h
          rw [List.cons_append, ← ih a1 b1 c1 d1 hm2]
    · rw [if_neg hsp] at h
      by_cases hn : ch = '\n'
      · rw [if_pos hn] at h
        exact Option.noConfusion h
      · rw [if_neg hn] at h
        cases hm2 : matchA rest with
        | none =>
          rw [hm2] at h
          exact Option.noConfusion h
        | some p =>
          obtain ⟨a1, b1, c1, d1⟩ := p
          rw [hm2, Option.map_some'] at h
          simp only [Option.some.injEq, Prod.mk.injEq] at h
          obtain ⟨rfl, rfl, rfl, rfl⟩ := h
          rw [List.cons_append, ← ih a1 b1 c1 d1 hm2]

/-- Soundness of the whole component regex: a successful match means the
input is literally of the component shape. -/
theorem componentMatch_sound (l : List Char) (a b c d : List Char)
    (h : componentMatch l = some (a, b, c, d)) : l = componentShape a b c d := by
  cases l with
  | nil => exact Option.noConfusion h
  | cons ch rest =>
    simp only [componentMatch] at h
    by_cases hb : ch = '['
    · rw [if_pos hb] at h
      unfold componentShape
      rw [hb, matchA_sound rest a b c d h]
    · rw [if_neg hb] at h
      exact Option.noConfusion h
/-- Mapping preserves definedness of an optional value. -/
theorem map_isSome {α β : Type} (f : α → β) (o : Option α) (h : o.isSome = true) :
    (o.map f).isSome = true := by
  cases o with
  | none => exact absurd h (by simp)
  | some a => rfl

/-- Unfolding of `noNL` over a cons. -/
theorem noNL_cons (ch : Char) (l : List Char) (h : noNL (ch :: l) = true) :
    ch ≠ '\n' ∧ noNL l = true := by
  simpa [noNL] using h

/-- Completeness of the tail step on newline-free bodies. -/
theorem tailMatch_complete :
    ∀ d : List Char, noNL d = true → tailMatch (d ++ [']']) = some d := by
  intro d
  induction d with
  | nil => intro _; rfl
  | cons ch d2 ih =>
    intro hd
    obtain ⟨hch, hd2⟩ := noNL_cons ch d2 hd
    have ih2 := ih hd2
    cases d2 with
    | nil => simp [tailMatch, hch]
    | cons e es =>
      simp only [List.cons_append] at ih2 ⊢
      simp only [tailMatch]
      rw [if_neg hch, ih2, Option.map_some']

/-- Completeness of the label group on newline-free components. -/
theorem matchLabel_complete :
    ∀ c : List Char, noNL c = true → ∀ d : List Char, noNL d = true →
      (matchLabel (c ++ quoteChar :: (d ++ [']']))).isSome = true := by
  intro c
  induction c with
  | nil =>
    intro _ d hd
    simp only [List.nil_append, matchLabel, if_pos rfl]
    rw [tailMatch_complete d hd]
    rfl
  | cons ch c2 ih =>
    intro hc d hd
    obtain ⟨hch, hc2⟩ := noNL_cons ch c2 hc
    simp only [List.cons_append, matchLabel]
    by_cases hq : ch = quoteChar
    · rw [if_pos hq]
      cases he : tailMatch (c2 ++ quoteChar :: (d ++ [']'])) with
      | some d2 => rfl
      | none => exact map_isSome _ _ (ih hc2 d hd)
    · rw [if_neg hq, if_neg hch]
      exact map_isSome _ _ (ih hc2 d hd)

/-- Completeness of the kind group on newline-free components. -/
theorem matchB_complete :
    ∀ b : List Char, noNL b = true → ∀ c d : List Char, noNL c = true → noNL d = true →
      (matchB (b ++ ' ' :: quoteChar :: (c ++ quoteChar :: (d ++ [']'])))).isSome = true := by
  intro b
  induction b with
  | nil =>
    intro _ c d hc hd
    simp only [List.nil_append, matchB, if_pos rfl]
    cases hl : matchLabel (c ++ quoteChar :: (d ++ [']'])) with
    | some p =>
      obtain ⟨c1, d1⟩ := p
      rfl
    | none =>
      exfalso
      have := matchLabel_complete c hc d hd
      rw [hl] at this
      simp at this
  | cons ch b2 ih =>
    intro hb c d hc hd
    obtain ⟨hch, hb2⟩ := noNL_cons ch b2 hb
    have ih2 := ih hb2 c d hc hd
    cases b2 with
    | nil =>
      simp only [List.nil_append] at ih2 ⊢
      simp only [List.cons_append, matchB]
      by_cases hsp : ch = ' '
      · rw [if_pos hsp, if_neg (by decide : ¬(' ' = quoteChar))]
        exact map_isSome _ _ ih2
      · rw [if_neg hsp, if_neg hch]
        exact map_isSome _ _ ih2
    | cons e es =>
      simp only [List.cons_append] at ih2 ⊢
      simp only [matchB]
      by_cases hsp : ch = ' '
      · rw [if_pos hsp]
        by_cases he : e = quoteChar
        · rw [if_pos he]
          cases hl : matchLabel (es ++ ' ' :: quoteChar :: (c ++ quoteChar :: (d ++ [']']))) with
          | some p =>
            obtain ⟨c1, d1⟩ := p
            rfl
          | none => exact map_isSome _ _ ih2
        · rw [if_neg he]
          exact map_isSome _ _ ih2
      · rw [if_neg hsp, if_neg hch]
        exact map_isSome _ _ ih2

/-- Completeness of the style group on newline-free components. -/
theorem matchA_complete :
    ∀ a : List Char, noNL a = true → ∀ b c d : List Char,
      noNL b = true → noNL c = true → noNL d = true →
      (matchA (a ++ ' ' :: (b ++ ' ' :: quoteChar :: (c ++ quoteChar :: (d ++ [']']))))).isSome
        = true := by
  intro a
  induction a with
  | nil =>
    intro _ b c d hb hc hd
    simp only [List.nil_append, matchA, if_pos rfl]
    cases hm : matchB (b ++ ' ' :: quoteChar :: (c ++ quoteChar :: (d ++ [']']))) with
    | some p =>
      obtain ⟨b1, c1, d1⟩ := p
      rfl
    | none =>
      exfalso
      have := matchB_complete b hb c d hc hd
      rw [hm] at this
      simp at this
  | cons ch a2 ih =>
    intro ha b c d hb hc hd
    obtain ⟨hch, ha2⟩ := noNL_cons ch a2 ha
    have ih2 := ih ha2 b c d hb hc hd
    simp only [List.cons_append, matchA]
    by_cases hsp : ch = ' '
    · rw [if_pos hsp]
      cases hm : matchB (a2 ++ ' ' :: (b ++ ' ' :: quoteChar :: (c ++ quoteChar :: (d ++ [']'])))) with
      | some p =>
        obtain ⟨b1, c1, d1⟩ := p
        rfl
      | none => exact map_isSome _ _ ih2
    · rw [if_neg hsp, if_neg hch]
      exact map_isSome _ _ ih2

/-- Completeness of the component regex: every payload of the component
shape with newline-free groups matches. -/
theorem componentMatch_complete (a b c d : List Char)
    (ha : noNL a = true) (hb : noNL b = true) (hc : noNL c = true) (hd : noNL d = true) :
    (componentMatch (componentShape a b c d)).isSome = true := by
  unfold componentShape
  simp only [componentMatch, if_pos rfl]
  exact matchA_complete a ha b c d hb hc hd
/-- C4: an `[Output]` payload matching the structured component literal
form (soundness: a successful match really decomposes the payload as
`[style kind 'label'...]`; completeness: every payload of that shape
matches) is decoded as a card drawable carrying the style tag and the
label and nothing else is; otherwise a payload whose text parses as a
finite real number under `parseFloat` becomes a number drawable, and any
other payload becomes a text drawable. -/
theorem C4_output_classification (content : String) :
    (∀ s k label d, componentMatch content.data = some (s, k, label, d) →
      content.data = componentShape s k label d ∧
      classifyOutput content =
        { type := OutType.card, content := String.mk label,
          id := some "MainButton", styleStr := some (String.mk s) }) ∧
    ((∃ a b c d, noNL a = true ∧ noNL b = true ∧ noNL c = true ∧ noNL d = true ∧
        content.data = componentShape a b c d) →
      (classifyOutput content).type = OutType.card) ∧
    (componentMatch content.data = none → (parseFloatQ content).isSome = true →
      classifyOutput content = { type := OutType.number, content := content }) ∧
    (componentMatch content.data = none → (parseFloatQ content).isSome = false →
      classifyOutput content = { type := OutType.text, content := content }) := by
  refine ⟨?_, ?_, ?_, ?_⟩
  · intro s k label d h
    exact ⟨componentMatch_sound content.data s k label d h,
      classifyOutput_card content s k label d h⟩
  · rintro ⟨a, b, c, d, ha, hb, hc, hd, hshape⟩
    have hsome := componentMatch_complete a b c d ha hb hc hd
    rw [← hshape] at hsome
    cases hm : componentMatch content.data with
    | none =>
      rw [hm] at hsome
      simp at hsome
    | some p =>
      obtain ⟨s, k, label, dd⟩ := p
      rw [classifyOutput_card content s k label dd hm]
  · intro hnone hnum
    rw [classifyOutput_nocard content hnone, if_pos hnum]
  · intro hnone hnum
    rw [classifyOutput_nocard content hnone, if_neg (by simp [hnum])]

/-- C4 witness: the concrete payload `[Red Button 'Hi!']` decodes as a
card with style tag `Red` and label `Hi!`. -/
theorem C4_witness :
    (componentMatch (String.mk (componentShape "Red".data "Button".data "Hi!".data [])).data =
      some ("Red".data, "Button".data, "Hi!".data, ([] : List Char))) ∧
    classifyOutput (String.mk (componentShape "Red".data "Button".data "Hi!".data [])) =
      { type := OutType.card, content := "Hi!", id := some "MainButton",
        styleStr := some "Red" } := by
  have h : componentMatch
      (String.mk (componentShape "Red".data "Button".data "Hi!".data [])).data =
      some ("Red".data, "Button".data, "Hi!".data, ([] : List Char)) := by decide
  exact ⟨h, ((C4_output_classification _).1 _ _ _ _ h).2⟩

/-- The outputs component of one processing step depends only on the
outputs component of the incoming state, never on the log panel. -/
theorem processMsg_outputs_congr (p : String → Option AnimEvent) (s1 s2 : PageState)
    (h : s1.outputs = s2.outputs) (msg : String) :
    (processMsg p s1 msg).outputs = (processMsg p s2 msg).outputs := by
  unfold processMsg
  cases h1 : tagCapture "[Output] ".data msg.data with
  | none =>
    cases h2 : tagCapture "[Animation] ".data msg.data with
    | none => cases h3 : regCapture msg.data <;> simp [h]
    | some payload =>
      cases hp2 : p (String.mk payload) <;> cases h3 : regCapture msg.data <;> simp [h, hp2]
  | some content =>
    cases h2 : tagCapture "[Animation] ".data msg.data with
    | none => cases h3 : regCapture msg.data <;> simp [h]
    | some payload =>
      cases hp2 : p (String.mk payload) <;> cases h3 : regCapture msg.data <;> simp [h, hp2]
/-- C5: feeding the malformed line `[Animation] not-json` (whose payload
is not valid JSON, so the abstracted `JSON.parse` returns `none`) leaves
the accumulated scene state (the outputs) unchanged, and any later line is
processed exactly as it would have been without the malformed line — the
parse failure is isolated and non-fatal. -/
theorem C5_malformed_isolated (p : String → Option AnimEvent) (st : PageState)
    (hp : p "not-json" = none) :
    (processMsg p st "[Animation] not-json").outputs = st.outputs ∧
    ∀ line : String,
      (processMsg p (processMsg p st "[Animation] not-json") line).outputs =
        (processMsg p st line).outputs := by
  have houts : (processMsg p st "[Animation] not-json").outputs = st.outputs := by
    unfold processMsg
    rw [show tagCapture "[Output] ".data ("[Animation] not-json").data = none from rfl]
    rw [show tagCapture "[Animation] ".data ("[Animation] not-json").data =
      some ("not-json".data) from rfl]
    rw [show regCapture ("[Animation] not-json").data = none from rfl]
    dsimp only
    rw [show (String.mk ("not-json".data)) = "not-json" from rfl, hp]
  exact ⟨houts, fun line => processMsg_outputs_congr p _ st houts line⟩

/-- C5 witness: the malformed line leaves an empty scene empty, at the
always-failing decoder. -/
theorem C5_witness :
    ((fun _ : String => (none : Option AnimEvent)) "not-json" = none) ∧
    (processMsg (fun _ => none) ⟨[], []⟩ "[Animation] not-json").outputs =
      (⟨[], []⟩ : PageState).outputs :=
  ⟨rfl, (C5_malformed_isolated (fun _ => none) ⟨[], []⟩ rfl).1⟩

end AGN

